import Mathlib

/-!
Verification of the Promizen library (src/src/promizen.js), a Promises/A+
implementation.  The development shallowly embeds the class-based
implementation (the copy carrying the `__fate` latch): a machine holds a heap
of promizen records, a FIFO microtask queue (modelling `queueMicrotask`), and
a log of handler-body executions (each entry records one invocation of a
handler during a drained microtask).  User-supplied functions (executors,
`then` handlers, foreign thenables) are defunctionalised into small script
types; all recursion is fuelled and structural, so every definition computes
by kernel reduction.
-/

set_option autoImplicit false

/-- State of a promizen: `this.state` (`PENDING`/`FULFILLED`/`REJECTED`). -/
inductive PZState where
  | pending
  | fulfilled
  | rejected
deriving DecidableEq, Repr

/-- Fate latch of a promizen: `this.__fate` (`UNRESOLVED`/`RESOLVED`). -/
inductive Fate where
  | unresolved
  | resolved
deriving DecidableEq, Repr

mutual
/-- A JavaScript value, as far as the resolution procedure inspects it:
`undef`, `null`, booleans, numbers, strings are primitives
(`typeof x` is neither object nor function, or `x === null`);
`typeError` models an Error object (an object with no `then` member);
`promizen pid` is a reference to the promizen at heap index `pid`
(`x instanceof Promizen`); `obj tb` is a foreign object whose `then`-member
behaviour is described by `tb`. -/
inductive JSValue where
  | undef
  | null
  | bool (b : Bool)
  | num (n : Int)
  | str (s : String)
  | typeError (msg : String)
  | promizen (pid : Nat)
  | obj (tb : ThenBehavior)

/-- Behaviour of the `then`-like member of a foreign (non-Promizen) object:
absent, a getter that throws on read (`x.then` raises), present but not
callable, or callable with a body described by a `ThenScript`. -/
inductive ThenBehavior where
  | noThen
  | getterThrows (e : JSValue)
  | thenNotCallable (v : JSValue)
  | thenCallable (s : ThenScript)

/-- Body of a foreign `then` method, as a straight-line script over the two
callbacks it receives: it may call the resolve callback, call the reject
callback, or throw (which aborts the body, the error propagating to the
`try`/`catch` around `thenFunc.call`). -/
inductive ThenScript where
  | done
  | callResolve (v : JSValue) (rest : ThenScript)
  | callReject (r : JSValue) (rest : ThenScript)
  | throwErr (e : JSValue)
end

/-- A handler function, defunctionalised.  `ident` is the default
`(value) => value`; `rethrow` is the default `(reason) => { throw reason }`;
`constF`/`throwF`/`strLength` are sample user handlers (`strLength` is
`(v) => v.length`); `internalResolve pid`/`internalReject pid` are the
closures `value => this.__resolve(value)` / `reason => this.__reject(reason)`
that `__resolveValue` passes to `x.then` when `x` is a Promizen. -/
inductive HFun where
  | ident
  | rethrow
  | constF (v : JSValue)
  | throwF (e : JSValue)
  | strLength
  | internalResolve (pid : Nat)
  | internalReject (pid : Nat)

/-- One entry of `this.__pendingHandlers`: the pair
`{ onFulfilled: fulfilledAction, onRejected: rejectedAction }` pushed by
`then`.  Both actions close over the source promizen `src` (whose
`value`/`reason` they read when their microtask runs), the freshly created
target promizen `tgt` (whose bound `resolve`/`reject` they call), and the
(defaulted) user handlers `onF`/`onR`. -/
structure Handler where
  src : Nat
  tgt : Nat
  onF : HFun
  onR : HFun

/-- The mutable fields of one Promizen object (constructor, lines 311-316). -/
structure PState where
  fate : Fate
  state : PZState
  value : JSValue
  reason : JSValue
  pendingHandlers : List Handler

/-- A queued microtask: the body
`() => { try { resolve(f(arg)) } catch (e) { reject(e) } }` queued by
`fulfilledAction` (`useReason = false`, `arg = src.value`) or
`rejectedAction` (`useReason = true`, `arg = src.reason`), settling `tgt`. -/
inductive Microtask where
  | run (src : Nat) (tgt : Nat) (useReason : Bool) (f : HFun)

/-- The whole machine: the heap of promizen objects (a pid is an index), the
microtask queue, and a log recording each handler-body execution (the
handler and the argument it was applied to).  The log is pure
instrumentation: nothing reads it. -/
structure Machine where
  heap : List PState
  queue : List Microtask
  log : List (HFun × JSValue)

/-- Field values of a freshly constructed promizen (lines 312-316). -/
def initPState : PState :=
  { fate := Fate.unresolved, state := PZState.pending,
    value := JSValue.null, reason := JSValue.null, pendingHandlers := [] }

def emptyMachine : Machine := { heap := [], queue := [], log := [] }

/-- Read the promizen at heap index `pid` (a fresh default outside range). -/
def getP (m : Machine) (pid : Nat) : PState :=
  m.heap.getD pid initPState

/-- Overwrite the promizen at heap index `pid`. -/
def setP (m : Machine) (pid : Nat) (p : PState) : Machine :=
  { m with heap := m.heap.set pid p }

/-- `__resolve` (lines 374-380): set `state = FULFILLED` and `value`, then
invoke every stashed `onFulfilled` action; each such action is
`fulfilledAction`, which queues one microtask. -/
def resolveInternal (m : Machine) (pid : Nat) (v : JSValue) : Machine :=
  let p := getP m pid
  let m1 := setP m pid { p with state := PZState.fulfilled, value := v }
  { m1 with
    queue := m1.queue ++ p.pendingHandlers.map (fun h => Microtask.run h.src h.tgt false h.onF) }

/-- `__reject` (lines 402-408): set `state = REJECTED` and `reason`, then
invoke every stashed `onRejected` action; each such action is
`rejectedAction`, which queues one microtask. -/
def rejectInternal (m : Machine) (pid : Nat) (r : JSValue) : Machine :=
  let p := getP m pid
  let m1 := setP m pid { p with state := PZState.rejected, reason := r }
  { m1 with
    queue := m1.queue ++ p.pendingHandlers.map (fun h => Microtask.run h.src h.tgt true h.onR) }

/-- `then` (lines 445-486).  `none` for a handler argument models any value
that fails the `typeof onFulfilled === "function"` test (missing or not
callable); it is replaced by the default (lines 446-447).  A fresh promizen
is allocated and its executor runs synchronously: if the source is already
fulfilled (resp. rejected) one microtask is queued at once; otherwise the
action pair is pushed onto the source's `__pendingHandlers`.  Returns the
updated machine and the pid of the new promizen. -/
def thenOp (m : Machine) (src : Nat) (onF onR : Option HFun) : Machine × Nat :=
  let f := onF.getD HFun.ident
  let r := onR.getD HFun.rethrow
  let tgt := m.heap.length
  let m1 : Machine := { m with heap := m.heap ++ [initPState] }
  let p := getP m1 src
  if p.state = PZState.fulfilled then
    ({ m1 with queue := m1.queue ++ [Microtask.run src tgt false f] }, tgt)
  else if p.state = PZState.rejected then
    ({ m1 with queue := m1.queue ++ [Microtask.run src tgt true r] }, tgt)
  else
    (setP m1 src { p with pendingHandlers := p.pendingHandlers ++ [⟨src, tgt, f, r⟩] }, tgt)

/-- `catch` (lines 496-498): alias for `then(null, onRejected)`. -/
def catchOp (m : Machine) (src : Nat) (onR : Option HFun) : Machine × Nat :=
  thenOp m src none onR

/-- The message of the self-resolution `TypeError` (line 512). -/
def cycleMsg : String := "chaining cycle detected for the promizen resolution"

/-- Execution of a foreign `then` body (lines 539-563), parametrised by the
resolution procedure `rv` to re-enter.  `called` is the shared latch: each
of the two callbacks returns at once if it is set, and sets it before acting;
a `throw` escaping the body is caught, and rejects the promizen only when
the latch is still unset. -/
def runThenScriptAux (rv : Machine → Nat → JSValue → Machine) :
    Machine → Nat → ThenScript → Bool → Machine
  | m, _, ThenScript.done, _ => m
  | m, pid, ThenScript.callResolve v rest, called =>
    if called then runThenScriptAux rv m pid rest called
    else runThenScriptAux rv (rv m pid v) pid rest true
  | m, pid, ThenScript.callReject r rest, called =>
    if called then runThenScriptAux rv m pid rest called
    else runThenScriptAux rv (rejectInternal m pid r) pid rest true
  | m, pid, ThenScript.throwErr e, called =>
    if called then m else rejectInternal m pid e

/-- `__resolveValue` (lines 510-564), fuelled (the fuel bounds the depth of
nested thenable unwrapping; every code path of the source is covered at any
positive fuel).  In order: the `this === x` cycle check; the
`x instanceof Promizen` case, which calls `x.then` with the two internal
closures; the primitive terminal case (`null` or `typeof` neither object nor
function) fulfilling directly; and the duck-typed member cases — reading
`x.then` may throw (reject), yield a non-callable (fulfil with `x`), or
yield a callable that is invoked with two latched callbacks.  An Error
object (`typeError`) is an object with no `then` member, so it takes the
read-then-not-callable path and is fulfilled directly, like the absent-member
object cases. -/
def resolveValue : Nat → Machine → Nat → JSValue → Machine
  | 0, m, _, _ => m
  | fuel + 1, m, pid, x =>
    match x with
    | JSValue.promizen q =>
      if q = pid then
        rejectInternal m pid (JSValue.typeError cycleMsg)
      else
        (thenOp m q (some (HFun.internalResolve pid)) (some (HFun.internalReject pid))).1
    | JSValue.obj ThenBehavior.noThen =>
      resolveInternal m pid (JSValue.obj ThenBehavior.noThen)
    | JSValue.obj (ThenBehavior.getterThrows e) => rejectInternal m pid e
    | JSValue.obj (ThenBehavior.thenNotCallable v) =>
      resolveInternal m pid (JSValue.obj (ThenBehavior.thenNotCallable v))
    | JSValue.obj (ThenBehavior.thenCallable s) =>
      runThenScriptAux (resolveValue fuel) m pid s false
    | JSValue.undef => resolveInternal m pid JSValue.undef
    | JSValue.null => resolveInternal m pid JSValue.null
    | JSValue.bool b => resolveInternal m pid (JSValue.bool b)
    | JSValue.num n => resolveInternal m pid (JSValue.num n)
    | JSValue.str s => resolveInternal m pid (JSValue.str s)
    | JSValue.typeError s => resolveInternal m pid (JSValue.typeError s)

/-- The foreign `then` body runner at a given fuel. -/
def runThenScript (fuel : Nat) : Machine → Nat → ThenScript → Bool → Machine :=
  runThenScriptAux (resolveValue fuel)

/-- `resolve` (lines 366-372), the public fulfilment entry point: a no-op
unless `__fate` is still unresolved and `state` still pending; otherwise it
latches `__fate = RESOLVED` first and then runs the resolution procedure. -/
def resolve (fuel : Nat) (m : Machine) (pid : Nat) (v : JSValue) : Machine :=
  let p := getP m pid
  if p.fate = Fate.resolved ∨ p.state ≠ PZState.pending then m
  else resolveValue fuel (setP m pid { p with fate := Fate.resolved }) pid v

/-- `reject` (lines 394-400), the public rejection entry point: same guard
and latch, then the direct `__reject` transition. -/
def reject (m : Machine) (pid : Nat) (r : JSValue) : Machine :=
  let p := getP m pid
  if p.fate = Fate.resolved ∨ p.state ≠ PZState.pending then m
  else rejectInternal (setP m pid { p with fate := Fate.resolved }) pid r

/-- Apply a handler to an argument, recording the execution in the log.
Returns the updated machine and `Except.error e` when the handler throws
`e`.  The internal closures settle their captured promizen via
`__resolve`/`__reject` and return `undefined`. -/
def applyHFun (m : Machine) (f : HFun) (arg : JSValue) : Machine × Except JSValue JSValue :=
  let m1 : Machine := { m with log := m.log ++ [(f, arg)] }
  match f with
  | HFun.ident => (m1, Except.ok arg)
  | HFun.rethrow => (m1, Except.error arg)
  | HFun.constF v => (m1, Except.ok v)
  | HFun.throwF e => (m1, Except.error e)
  | HFun.strLength =>
    match arg with
    | JSValue.str s => (m1, Except.ok (JSValue.num (Int.ofNat s.length)))
    | _ => (m1, Except.error (JSValue.typeError "cannot read property length"))
  | HFun.internalResolve pid => (resolveInternal m1 pid arg, Except.ok JSValue.undef)
  | HFun.internalReject pid => (rejectInternal m1 pid arg, Except.ok JSValue.undef)

/-- Run one dequeued microtask (the body queued at lines 451-457/461-467):
read the source's `value` or `reason`, apply the handler, and settle the
target through its public entry points (`resolve` on normal return, `reject`
on throw). -/
def runTask (fuel : Nat) (m : Machine) (t : Microtask) : Machine :=
  match t with
  | Microtask.run src tgt useReason f =>
    let arg := if useReason then (getP m src).reason else (getP m src).value
    match applyHFun m f arg with
    | (m1, Except.ok v) => resolve fuel m1 tgt v
    | (m1, Except.error e) => reject m1 tgt e

/-- Drain up to `n` microtasks in FIFO order. -/
def runQueue (fuel : Nat) : Nat → Machine → Machine
  | 0, m => m
  | n + 1, m =>
    match m.queue with
    | [] => m
    | t :: rest => runQueue fuel n (runTask fuel { m with queue := rest } t)

/-- One step of a user-supplied executor body: call the received `resolve`,
call the received `reject`, or throw. -/
inductive ExecAction where
  | callResolve (v : JSValue)
  | callReject (r : JSValue)
  | throwErr (e : JSValue)

/-- Run an executor body on promizen `pid`.  A throw aborts the body; the
`try`/`catch` around `executor(...)` (lines 322-326) turns it into a call of
the public `reject`. -/
def runExecActions (fuel : Nat) (m : Machine) (pid : Nat) : List ExecAction → Machine
  | [] => m
  | ExecAction.callResolve v :: rest =>
    runExecActions fuel (resolve fuel m pid v) pid rest
  | ExecAction.callReject r :: rest =>
    runExecActions fuel (reject m pid r) pid rest
  | ExecAction.throwErr e :: _ => reject m pid e

/-- `new Promizen(executor)` with a callable executor (lines 311-327):
allocate a fresh pending promizen, then run the executor synchronously. -/
def mkPromizen (fuel : Nat) (m : Machine) (actions : List ExecAction) : Machine × Nat :=
  let pid := m.heap.length
  let m1 : Machine := { m with heap := m.heap ++ [initPState] }
  (runExecActions fuel m1 pid actions, pid)

/-- `x === null || (typeof x !== "object" && typeof x !== "function")`
(line 521). -/
def isPrimitive : JSValue → Bool
  | JSValue.undef => true
  | JSValue.null => true
  | JSValue.bool _ => true
  | JSValue.num _ => true
  | JSValue.str _ => true
  | _ => false

/-- `m1` preserves every promizen's fate latch and the handler-execution log
of `m`. -/
def Pres (m m1 : Machine) : Prop :=
  (∀ q, (getP m1 q).fate = (getP m q).fate) ∧ m1.log = m.log

def wM1 : Machine := { heap := [initPState], queue := [], log := [] }

def wM2 : Machine :=
  { heap := [{ initPState with
      pendingHandlers := [⟨0, 1, HFun.ident, HFun.rethrow⟩] }, initPState],
    queue := [], log := [] }

def wM3 : Machine := { heap := [initPState], queue := [], log := [] }

/-- The machine after `then` has allocated its fresh promizen, with an
explicit queue and log (used to state intermediate shapes of a `then` call
on a settled source). -/
def pushedMachine (m : Machine) (q : List Microtask)
    (lg : List (HFun × JSValue)) : Machine :=
  { heap := m.heap ++ [initPState], queue := q, log := lg }

def wP7a : PState :=
  { fate := Fate.resolved, state := PZState.fulfilled,
    value := JSValue.num 9, reason := JSValue.null, pendingHandlers := [] }

def wP7b : PState :=
  { fate := Fate.resolved, state := PZState.rejected,
    value := JSValue.null, reason := JSValue.str "why", pendingHandlers := [] }

def wM7a : Machine := { heap := [wP7a], queue := [], log := [] }

def wM7b : Machine := { heap := [wP7b], queue := [], log := [] }

def wM8 : Machine := { heap := [initPState], queue := [], log := [] }

/-- The end-to-end scenario of C9: construct a promizen whose executor
synchronously calls `resolve("How are u?")`, attach
`then(v => v.length)`, and drain the microtask queue. -/
def chainScenario : Machine :=
  runQueue 3 1 (thenOp (mkPromizen 3 emptyMachine
    [ExecAction.callResolve (JSValue.str "How are u?")]).1 0
    (some HFun.strLength) none).1

/-! ### List access helper lemmas -/

theorem list_getD_oob {α : Type} (l : List α) (i : Nat) (d : α) (h : l.length ≤ i) :
    l.getD i d = d := by
  induction l generalizing i with
  | nil => simp [List.getD]
  | cons a t ih =>
    cases i with
    | zero => simp at h
    | succ n => simpa using ih n (by simpa using h)

theorem list_getD_set_self {α : Type} (l : List α) (i : Nat) (a d : α)
    (h : i < l.length) : (l.set i a).getD i d = a := by
  induction l generalizing i with
  | nil => simp at h
  | cons b t ih =>
    cases i with
    | zero => rfl
    | succ n => simpa using ih n (by simpa using h)

theorem list_getD_set_ne {α : Type} (l : List α) (i j : Nat) (a d : α)
    (h : i ≠ j) : (l.set i a).getD j d = l.getD j d := by
  induction l generalizing i j with
  | nil => rfl
  | cons b t ih =>
    cases i with
    | zero =>
      cases j with
      | zero => exact absurd rfl h
      | succ k => rfl
    | succ n =>
      cases j with
      | zero => rfl
      | succ k => simpa using ih n k (fun hnk => h (by simp [hnk]))

theorem list_set_oob {α : Type} (l : List α) (i : Nat) (a : α)
    (h : l.length ≤ i) : l.set i a = l := by
  induction l generalizing i with
  | nil => rfl
  | cons b t ih =>
    cases i with
    | zero => simp at h
    | succ n => simpa using ih n (by simpa using h)

theorem list_getD_append_left {α : Type} (l t : List α) (i : Nat) (d : α)
    (h : i < l.length) : (l ++ t).getD i d = l.getD i d := by
  induction l generalizing i with
  | nil => simp at h
  | cons b u ih =>
    cases i with
    | zero => rfl
    | succ n => simpa using ih n (by simpa using h)

theorem list_getD_append_len {α : Type} (l : List α) (a d : α) :
    (l ++ [a]).getD l.length d = a := by
  induction l with
  | nil => rfl
  | cons b t ih => simp [ih]

/-! ### Heap access lemmas -/

theorem getP_setP_self (m : Machine) (pid : Nat) (p : PState)
    (h : pid < m.heap.length) : getP (setP m pid p) pid = p :=
  list_getD_set_self m.heap pid p initPState h

theorem getP_setP_ne (m : Machine) (pid q : Nat) (p : PState)
    (h : pid ≠ q) : getP (setP m pid p) q = getP m q :=
  list_getD_set_ne m.heap pid q p initPState h

theorem setP_oob (m : Machine) (pid : Nat) (p : PState)
    (h : m.heap.length ≤ pid) : setP m pid p = m := by
  show { m with heap := m.heap.set pid p } = m
  rw [list_set_oob m.heap pid p h]

theorem getP_oob (m : Machine) (pid : Nat) (h : m.heap.length ≤ pid) :
    getP m pid = initPState :=
  list_getD_oob m.heap pid initPState h

theorem getP_append_initPState (m : Machine) (q : Nat) :
    getP { m with heap := m.heap ++ [initPState] } q = getP m q := by
  rcases lt_trichotomy q m.heap.length with h | h | h
  · exact list_getD_append_left m.heap [initPState] q initPState h
  · subst h
    show (m.heap ++ [initPState]).getD m.heap.length initPState = _
    rw [list_getD_append_len]
    exact (getP_oob m m.heap.length (le_refl _)).symm
  · show (m.heap ++ [initPState]).getD q initPState = m.heap.getD q initPState
    rw [list_getD_oob m.heap q initPState (le_of_lt h),
        list_getD_oob (m.heap ++ [initPState]) q initPState (by simp; omega)]

theorem setP_heap_length (m : Machine) (pid : Nat) (p : PState) :
    (setP m pid p).heap.length = m.heap.length := by
  show (m.heap.set pid p).length = m.heap.length
  simp

/-! ### Preservation: none of the synchronous settlement paths touches the
fate latch of any promizen, and none of them executes a handler body. -/

theorem pres_refl (m : Machine) : Pres m m := ⟨fun _ => rfl, rfl⟩

theorem pres_trans {a b c : Machine} (h1 : Pres a b) (h2 : Pres b c) : Pres a c :=
  ⟨fun q => (h2.1 q).trans (h1.1 q), h2.2.trans h1.2⟩

theorem pres_setP (m : Machine) (pid : Nat) (p : PState)
    (h : p.fate = (getP m pid).fate) : Pres m (setP m pid p) := by
  refine ⟨fun q => ?_, rfl⟩
  rcases Nat.lt_or_ge pid m.heap.length with hl | hl
  · rcases Nat.decEq pid q with hq | hq
    · rw [getP_setP_ne m pid q p hq]
    · subst hq; rw [getP_setP_self m pid p hl, h]
  · rw [setP_oob m pid p hl]

theorem pres_resolveInternal (m : Machine) (pid : Nat) (v : JSValue) :
    Pres m (resolveInternal m pid v) :=
  pres_setP m pid _ rfl

theorem pres_rejectInternal (m : Machine) (pid : Nat) (r : JSValue) :
    Pres m (rejectInternal m pid r) :=
  pres_setP m pid _ rfl

theorem pres_thenOp (m : Machine) (src : Nat) (onF onR : Option HFun) :
    Pres m (thenOp m src onF onR).1 := by
  have happ : Pres m { m with heap := m.heap ++ [initPState] } :=
    ⟨fun q => by rw [getP_append_initPState], rfl⟩
  simp only [thenOp]
  split
  · exact happ
  · split
    · exact happ
    · exact pres_trans happ (pres_setP _ src _ rfl)

theorem pres_runThenScriptAux (rv : Machine → Nat → JSValue → Machine)
    (hrv : ∀ m pid v, Pres m (rv m pid v)) :
    ∀ (s : ThenScript) (m : Machine) (pid : Nat) (c : Bool),
    Pres m (runThenScriptAux rv m pid s c)
  | ThenScript.done, m, _, _ => pres_refl m
  | ThenScript.callResolve v rest, m, pid, true => by
    simpa [runThenScriptAux] using pres_runThenScriptAux rv hrv rest m pid true
  | ThenScript.callResolve v rest, m, pid, false => by
    simp only [runThenScriptAux, Bool.false_eq_true, if_false]
    exact pres_trans (hrv m pid v)
      (pres_runThenScriptAux rv hrv rest (rv m pid v) pid true)
  | ThenScript.callReject r rest, m, pid, true => by
    simpa [runThenScriptAux] using pres_runThenScriptAux rv hrv rest m pid true
  | ThenScript.callReject r rest, m, pid, false => by
    simp only [runThenScriptAux, Bool.false_eq_true, if_false]
    exact pres_trans (pres_rejectInternal m pid r)
      (pres_runThenScriptAux rv hrv rest (rejectInternal m pid r) pid true)
  | ThenScript.throwErr _, m, _, true => by
    simpa [runThenScriptAux] using pres_refl m
  | ThenScript.throwErr e, m, pid, false => by
    simp only [runThenScriptAux, Bool.false_eq_true, if_false]
    exact pres_rejectInternal m pid e

theorem pres_resolveValue :
    ∀ (fuel : Nat) (m : Machine) (pid : Nat) (x : JSValue),
    Pres m (resolveValue fuel m pid x) := by
  intro fuel
  induction fuel with
  | zero => intro m pid x; exact pres_refl m
  | succ n ih =>
    intro m pid x
    cases x with
    | undef => exact pres_resolveInternal m pid _
    | null => exact pres_resolveInternal m pid _
    | bool b => exact pres_resolveInternal m pid _
    | num k => exact pres_resolveInternal m pid _
    | str s => exact pres_resolveInternal m pid _
    | typeError s => exact pres_resolveInternal m pid _
    | promizen q =>
      show Pres m (if q = pid then _ else _)
      split
      · exact pres_rejectInternal m pid _
      · exact pres_thenOp m q _ _
    | obj tb =>
      cases tb with
      | noThen => exact pres_resolveInternal m pid _
      | getterThrows e => exact pres_rejectInternal m pid e
      | thenNotCallable v => exact pres_resolveInternal m pid _
      | thenCallable s => exact pres_runThenScriptAux (resolveValue n) ih s m pid false

/-! ### Entry-point guards and settlement results -/

/-- A settlement entry point is a no-op once the fate latch is set. -/
theorem resolve_noop (fuel : Nat) (m : Machine) (pid : Nat) (v : JSValue)
    (h : (getP m pid).fate = Fate.resolved) : resolve fuel m pid v = m := by
  simp only [resolve]
  rw [if_pos (Or.inl h)]

theorem reject_noop (m : Machine) (pid : Nat) (r : JSValue)
    (h : (getP m pid).fate = Fate.resolved) : reject m pid r = m := by
  simp only [reject]
  rw [if_pos (Or.inl h)]

/-- An accepted `resolve` call sets the fate latch before doing anything
else, and no later synchronous resolution work clears it. -/
theorem fate_after_resolve (fuel : Nat) (m : Machine) (pid : Nat) (v : JSValue)
    (hf : (getP m pid).fate = Fate.unresolved)
    (hs : (getP m pid).state = PZState.pending)
    (hl : pid < m.heap.length) :
    (getP (resolve fuel m pid v) pid).fate = Fate.resolved := by
  have hguard : ¬((getP m pid).fate = Fate.resolved ∨
      ¬(getP m pid).state = PZState.pending) := by simp [hf, hs]
  simp only [resolve]
  rw [if_neg hguard, (pres_resolveValue fuel _ pid v).1 pid,
    getP_setP_self m pid _ hl]

/-- What `__reject` does to the promizen and the queue. -/
theorem rejectInternal_result (m : Machine) (pid : Nat) (r : JSValue)
    (hl : pid < m.heap.length) :
    getP (rejectInternal m pid r) pid
      = { getP m pid with state := PZState.rejected, reason := r } ∧
    (rejectInternal m pid r).queue
      = m.queue ++ (getP m pid).pendingHandlers.map
          (fun h => Microtask.run h.src h.tgt true h.onR) :=
  ⟨getP_setP_self m pid _ hl, rfl⟩

/-- What `__resolve` does to the promizen and the queue. -/
theorem resolveInternal_result (m : Machine) (pid : Nat) (v : JSValue)
    (hl : pid < m.heap.length) :
    getP (resolveInternal m pid v) pid
      = { getP m pid with state := PZState.fulfilled, value := v } ∧
    (resolveInternal m pid v).queue
      = m.queue ++ (getP m pid).pendingHandlers.map
          (fun h => Microtask.run h.src h.tgt false h.onF) :=
  ⟨getP_setP_self m pid _ hl, rfl⟩

/-- What an accepted `reject` call does. -/
theorem reject_result (m : Machine) (pid : Nat) (r : JSValue)
    (hf : (getP m pid).fate = Fate.unresolved)
    (hs : (getP m pid).state = PZState.pending)
    (hl : pid < m.heap.length) :
    getP (reject m pid r) pid
      = { getP m pid with
            fate := Fate.resolved
            state := PZState.rejected
            reason := r } ∧
    (reject m pid r).queue
      = m.queue ++ (getP m pid).pendingHandlers.map
          (fun h => Microtask.run h.src h.tgt true h.onR) := by
  have hguard : ¬((getP m pid).fate = Fate.resolved ∨
      ¬(getP m pid).state = PZState.pending) := by simp [hf, hs]
  simp only [reject]
  rw [if_neg hguard]
  have hl2 : pid < (setP m pid { getP m pid with fate := Fate.resolved }).heap.length := by
    rw [setP_heap_length]; exact hl
  have hres := rejectInternal_result (setP m pid { getP m pid with fate := Fate.resolved })
    pid r hl2
  rw [hres.1, hres.2, getP_setP_self m pid _ hl]
  exact ⟨rfl, rfl⟩

/-- On a primitive value the resolution procedure fulfils directly
(line 521-524). -/
theorem resolveValue_primitive (fuel : Nat) (m : Machine) (pid : Nat) (v : JSValue)
    (hp : isPrimitive v = true) :
    resolveValue (fuel + 1) m pid v = resolveInternal m pid v := by
  cases v <;> simp_all [resolveValue, isPrimitive]

/-- What an accepted `resolve` call with a primitive value does. -/
theorem resolve_fresh_primitive (fuel : Nat) (m : Machine) (pid : Nat) (v : JSValue)
    (hp : isPrimitive v = true)
    (hf : (getP m pid).fate = Fate.unresolved)
    (hs : (getP m pid).state = PZState.pending)
    (hl : pid < m.heap.length) :
    getP (resolve (fuel + 1) m pid v) pid
      = { getP m pid with
            fate := Fate.resolved
            state := PZState.fulfilled
            value := v } ∧
    (resolve (fuel + 1) m pid v).queue
      = m.queue ++ (getP m pid).pendingHandlers.map
          (fun h => Microtask.run h.src h.tgt false h.onF) := by
  have hguard : ¬((getP m pid).fate = Fate.resolved ∨
      ¬(getP m pid).state = PZState.pending) := by simp [hf, hs]
  simp only [resolve]
  rw [if_neg hguard]
  rw [resolveValue_primitive fuel _ pid v hp]
  have hl2 : pid < (setP m pid { getP m pid with fate := Fate.resolved }).heap.length := by
    rw [setP_heap_length]; exact hl
  have hres := resolveInternal_result (setP m pid { getP m pid with fate := Fate.resolved })
    pid v hl2
  rw [hres.1, hres.2, getP_setP_self m pid _ hl]
  exact ⟨rfl, rfl⟩

/-- A whole executor body is ineffective once the fate latch is set. -/
theorem runExecActions_noop (fuel : Nat) (m : Machine) (pid : Nat)
    (h : (getP m pid).fate = Fate.resolved) :
    ∀ actions, runExecActions fuel m pid actions = m
  | [] => rfl
  | ExecAction.callResolve v :: rest => by
    simp only [runExecActions, resolve_noop fuel m pid v h]
    exact runExecActions_noop fuel m pid h rest
  | ExecAction.callReject r :: rest => by
    simp only [runExecActions, reject_noop m pid r h]
    exact runExecActions_noop fuel m pid h rest
  | ExecAction.throwErr e :: _ => by
    simp only [runExecActions, reject_noop m pid e h]

/-- Once the shared latch of the two callbacks passed to a foreign `then` is
set, the rest of the body can no longer affect the machine. -/
theorem runThenScriptAux_latched (rv : Machine → Nat → JSValue → Machine) :
    ∀ (s : ThenScript) (m : Machine) (pid : Nat),
      runThenScriptAux rv m pid s true = m
  | ThenScript.done, _, _ => rfl
  | ThenScript.callResolve v rest, m, pid => by
    simpa [runThenScriptAux] using runThenScriptAux_latched rv rest m pid
  | ThenScript.callReject r rest, m, pid => by
    simpa [runThenScriptAux] using runThenScriptAux_latched rv rest m pid
  | ThenScript.throwErr e, m, pid => by simp [runThenScriptAux]

/-- Applying a handler appends exactly one entry to the execution log. -/
theorem log_applyHFun (m : Machine) (f : HFun) (arg : JSValue) :
    (applyHFun m f arg).1.log = m.log ++ [(f, arg)] := by
  cases f <;> first
    | rfl
    | (cases arg <;> rfl)

/-- The public entry points never execute a handler body. -/
theorem log_resolve (fuel : Nat) (m : Machine) (pid : Nat) (v : JSValue) :
    (resolve fuel m pid v).log = m.log := by
  simp only [resolve]
  split
  · rfl
  · exact (pres_resolveValue fuel _ pid v).2

theorem log_reject (m : Machine) (pid : Nat) (r : JSValue) :
    (reject m pid r).log = m.log := by
  simp only [reject]
  split
  · rfl
  · exact (pres_rejectInternal _ pid r).2

/-! ### Claim theorems -/

/-- C1: for every promizen, once a first settlement request has been
accepted via either entry point (`resolve`, i.e. settleFulfilled, or
`reject`, i.e. settleRejected), the fate latch is `RESOLVED`, and every
subsequent call to either entry point, with any argument and in any
interleaving (fulfill-then-fulfill, fulfill-then-reject,
reject-then-fulfill, reject-then-reject), returns the machine completely
unchanged — a silent no-op — so the latch transitions `UNRESOLVED` to
`RESOLVED` at most once and the eventual state, value and reason are
exactly those determined by the first accepted call. -/
theorem settle_entry_points_latch_once (fuel fuel2 : Nat) (m : Machine)
    (pid : Nat) (v w r : JSValue)
    (hf : (getP m pid).fate = Fate.unresolved)
    (hs : (getP m pid).state = PZState.pending)
    (hl : pid < m.heap.length) :
    ((getP (resolve fuel m pid v) pid).fate = Fate.resolved ∧
      resolve fuel2 (resolve fuel m pid v) pid w = resolve fuel m pid v ∧
      reject (resolve fuel m pid v) pid r = resolve fuel m pid v) ∧
    ((getP (reject m pid v) pid).fate = Fate.resolved ∧
      resolve fuel2 (reject m pid v) pid w = reject m pid v ∧
      reject (reject m pid v) pid r = reject m pid v) := by
  have h1 := fate_after_resolve fuel m pid v hf hs hl
  have h2 : (getP (reject m pid v) pid).fate = Fate.resolved := by
    rw [(reject_result m pid v hf hs hl).1]
  exact ⟨⟨h1, resolve_noop fuel2 _ pid w h1, reject_noop _ pid r h1⟩,
    ⟨h2, resolve_noop fuel2 _ pid w h2, reject_noop _ pid r h2⟩⟩

/-- Witness for C1: a single freshly constructed promizen, first settled
with `42`, then hit again by both entry points. -/
theorem settle_entry_points_latch_once_witness :
    ((getP wM1 0).fate = Fate.unresolved ∧
      (getP wM1 0).state = PZState.pending ∧ 0 < wM1.heap.length) ∧
    (((getP (resolve 1 wM1 0 (JSValue.num 42)) 0).fate = Fate.resolved ∧
      resolve 1 (resolve 1 wM1 0 (JSValue.num 42)) 0 (JSValue.num 7)
        = resolve 1 wM1 0 (JSValue.num 42) ∧
      reject (resolve 1 wM1 0 (JSValue.num 42)) 0 (JSValue.str "late")
        = resolve 1 wM1 0 (JSValue.num 42)) ∧
    ((getP (reject wM1 0 (JSValue.num 42)) 0).fate = Fate.resolved ∧
      resolve 1 (reject wM1 0 (JSValue.num 42)) 0 (JSValue.num 7)
        = reject wM1 0 (JSValue.num 42) ∧
      reject (reject wM1 0 (JSValue.num 42)) 0 (JSValue.str "late")
        = reject wM1 0 (JSValue.num 42))) :=
  ⟨⟨rfl, rfl, by decide⟩,
    settle_entry_points_latch_once 1 1 wM1 0 (JSValue.num 42) (JSValue.num 7)
      (JSValue.str "late") rfl rfl (by decide)⟩

/-- C2: invoking the resolution procedure on a promizen with itself as the
candidate value rejects it with the chaining-cycle `TypeError`, whatever its
previously registered pending continuations are, and every one of those
continuations has its rejection thunk invoked (one microtask per registered
pair is queued, in registration order). -/
theorem cycle_self_resolution_rejects (fuel : Nat) (m : Machine) (pid : Nat)
    (hl : pid < m.heap.length) :
    (getP (resolveValue (fuel + 1) m pid (JSValue.promizen pid)) pid).state
      = PZState.rejected ∧
    (getP (resolveValue (fuel + 1) m pid (JSValue.promizen pid)) pid).reason
      = JSValue.typeError cycleMsg ∧
    (resolveValue (fuel + 1) m pid (JSValue.promizen pid)).queue
      = m.queue ++ (getP m pid).pendingHandlers.map
          (fun h => Microtask.run h.src h.tgt true h.onR) := by
  have hstep : resolveValue (fuel + 1) m pid (JSValue.promizen pid)
      = rejectInternal m pid (JSValue.typeError cycleMsg) := by
    simp [resolveValue]
  rw [hstep]
  have hres := rejectInternal_result m pid (JSValue.typeError cycleMsg) hl
  exact ⟨by rw [hres.1], by rw [hres.1], hres.2⟩

/-- Witness for C2: a promizen that already has one stashed continuation
pair is resolved with itself. -/
theorem cycle_self_resolution_rejects_witness :
    0 < wM2.heap.length ∧
    ((getP (resolveValue 1 wM2 0 (JSValue.promizen 0)) 0).state
      = PZState.rejected ∧
    (getP (resolveValue 1 wM2 0 (JSValue.promizen 0)) 0).reason
      = JSValue.typeError cycleMsg ∧
    (resolveValue 1 wM2 0 (JSValue.promizen 0)).queue
      = wM2.queue ++ (getP wM2 0).pendingHandlers.map
          (fun h => Microtask.run h.src h.tgt true h.onR)) :=
  ⟨by decide, cycle_self_resolution_rejects 0 wM2 0 (by decide)⟩

/-- C3 counterexample: the claim says a primitive value settles the
promizen "asynchronously", but in the code `resolve(42)` on a fresh pending
promizen has already set `state = FULFILLED` when the call returns, and the
microtask queue is still empty, so no deferred task performs (or could
perform) the settlement: the state transition is synchronous. -/
theorem fulfill_primitive_async_counterexample :
    (getP (resolve 1 wM3 0 (JSValue.num 42)) 0).state = PZState.fulfilled ∧
    (getP (resolve 1 wM3 0 (JSValue.num 42)) 0).value = JSValue.num 42 ∧
    (resolve 1 wM3 0 (JSValue.num 42)).queue = [] :=
  ⟨rfl, rfl, rfl⟩

/-- C3 (amended): for every value `v` that is null or not of
object/callable type, settling a pending promizen with `v` via
`settleFulfilled` settles it to Fulfilled with exactly `v` — synchronously,
within the entry-point call itself, with no further unwrapping of `v`; the
only deferred work is the stashed continuations' fulfilment microtasks
(handlers still observe the value asynchronously). -/
theorem fulfill_primitive_direct (fuel : Nat) (m : Machine) (pid : Nat)
    (v : JSValue) (hp : isPrimitive v = true)
    (hf : (getP m pid).fate = Fate.unresolved)
    (hs : (getP m pid).state = PZState.pending)
    (hl : pid < m.heap.length) :
    (getP (resolve (fuel + 1) m pid v) pid).state = PZState.fulfilled ∧
    (getP (resolve (fuel + 1) m pid v) pid).value = v ∧
    (resolve (fuel + 1) m pid v).queue
      = m.queue ++ (getP m pid).pendingHandlers.map
          (fun h => Microtask.run h.src h.tgt false h.onF) := by
  have hres := resolve_fresh_primitive fuel m pid v hp hf hs hl
  exact ⟨by rw [hres.1], by rw [hres.1], hres.2⟩

/-- Witness for C3 (amended): fulfilling a fresh promizen with the string
"ok". -/
theorem fulfill_primitive_direct_witness :
    (isPrimitive (JSValue.str "ok") = true ∧
      (getP wM3 0).fate = Fate.unresolved ∧
      (getP wM3 0).state = PZState.pending ∧ 0 < wM3.heap.length) ∧
    ((getP (resolve 1 wM3 0 (JSValue.str "ok")) 0).state = PZState.fulfilled ∧
    (getP (resolve 1 wM3 0 (JSValue.str "ok")) 0).value = JSValue.str "ok" ∧
    (resolve 1 wM3 0 (JSValue.str "ok")).queue
      = wM3.queue ++ (getP wM3 0).pendingHandlers.map
          (fun h => Microtask.run h.src h.tgt false h.onF)) :=
  ⟨⟨rfl, rfl, rfl, by decide⟩,
    fulfill_primitive_direct 0 wM3 0 (JSValue.str "ok") rfl rfl rfl (by decide)⟩

/-- C4: in the thenable-unwrapping step the two callbacks handed to the
foreign `then` share one already-called latch: once the latch is set the
remainder of the body (further calls to either callback, or a trailing
throw) leaves the machine untouched, so whichever callback fires first
decides the outcome; a body whose first action is the resolve callback acts
exactly as one resolution, one whose first action is the reject callback
acts exactly as one `__reject`, and a body that throws before either
callback fired rejects the promizen with the thrown error. -/
theorem thenable_callback_latch (fuel : Nat) (m : Machine) (pid : Nat) :
    (∀ s, runThenScript fuel m pid s true = m) ∧
    (∀ v rest, runThenScript fuel m pid (ThenScript.callResolve v rest) false
        = resolveValue fuel m pid v) ∧
    (∀ r rest, runThenScript fuel m pid (ThenScript.callReject r rest) false
        = rejectInternal m pid r) ∧
    (∀ e, runThenScript fuel m pid (ThenScript.throwErr e) false
        = rejectInternal m pid e) := by
  refine ⟨fun s => runThenScriptAux_latched _ s m pid,
    fun v rest => ?_, fun r rest => ?_, fun e => ?_⟩
  · show runThenScriptAux (resolveValue fuel) m pid
      (ThenScript.callResolve v rest) false = _
    simp only [runThenScriptAux, Bool.false_eq_true, if_false]
    exact runThenScriptAux_latched _ rest _ pid
  · show runThenScriptAux (resolveValue fuel) m pid
      (ThenScript.callReject r rest) false = _
    simp only [runThenScriptAux, Bool.false_eq_true, if_false]
    exact runThenScriptAux_latched _ rest _ pid
  · show runThenScriptAux (resolveValue fuel) m pid
      (ThenScript.throwErr e) false = _
    simp [runThenScriptAux]

/-- Handler applications happen only inside microtask execution. -/
theorem log_runTask (fuel : Nat) (m : Machine) (s t : Nat) (u : Bool)
    (f : HFun) :
    (runTask fuel m (Microtask.run s t u f)).log
      = m.log ++ [(f, if u then (getP m s).reason else (getP m s).value)] := by
  have hlog := log_applyHFun m f (if u then (getP m s).reason else (getP m s).value)
  simp only [runTask]
  rcases happ : applyHFun m f (if u then (getP m s).reason else (getP m s).value)
    with ⟨m1, res⟩
  rw [happ] at hlog
  cases res with
  | ok vv => simp only; rw [log_resolve]; exact hlog
  | error e => simp only; rw [log_reject]; exact hlog

/-- C5: handler bodies supplied to the chaining operations never execute
synchronously inside the call that triggered them: a `then` or `catch` call
leaves the execution log unchanged (even when the source is already
settled), and so does a settlement call through either entry point (which
merely queues the stashed continuations); a handler body runs exactly when
its microtask is drained, the only place the log grows. -/
theorem handlers_never_run_sync (fuel : Nat) (m : Machine) (src pid : Nat)
    (onF onR : Option HFun) (v r : JSValue) :
    (thenOp m src onF onR).1.log = m.log ∧
    (catchOp m src onR).1.log = m.log ∧
    (resolve fuel m pid v).log = m.log ∧
    (reject m pid r).log = m.log ∧
    (∀ s t u f, (runTask fuel m (Microtask.run s t u f)).log
        = m.log ++ [(f, if u then (getP m s).reason else (getP m s).value)]) :=
  ⟨(pres_thenOp m src onF onR).2, (pres_thenOp m src none onR).2,
    log_resolve fuel m pid v, log_reject m pid r,
    fun s t u f => log_runTask fuel m s t u f⟩

/-- C6: if the executor throws synchronously, the new promizen is rejected
with the thrown error — unless a settlement entry point was already called
inside the executor, in which case that first settlement wins (fulfilment
with a primitive or rejection alike) and the thrown error, like every other
later action of the executor, is discarded. -/
theorem executor_throw_vs_settlement (fuel : Nat) (m : Machine)
    (e r v : JSValue) (rest rest2 rest3 : List ExecAction)
    (hp : isPrimitive v = true) :
    ((getP (mkPromizen fuel m (ExecAction.throwErr e :: rest)).1
        (mkPromizen fuel m (ExecAction.throwErr e :: rest)).2).state
        = PZState.rejected ∧
      (getP (mkPromizen fuel m (ExecAction.throwErr e :: rest)).1
        (mkPromizen fuel m (ExecAction.throwErr e :: rest)).2).reason = e) ∧
    ((getP (mkPromizen fuel m (ExecAction.callReject r :: rest2)).1
        (mkPromizen fuel m (ExecAction.callReject r :: rest2)).2).state
        = PZState.rejected ∧
      (getP (mkPromizen fuel m (ExecAction.callReject r :: rest2)).1
        (mkPromizen fuel m (ExecAction.callReject r :: rest2)).2).reason = r) ∧
    ((getP (mkPromizen (fuel + 1) m (ExecAction.callResolve v :: rest3)).1
        (mkPromizen (fuel + 1) m (ExecAction.callResolve v :: rest3)).2).state
        = PZState.fulfilled ∧
      (getP (mkPromizen (fuel + 1) m (ExecAction.callResolve v :: rest3)).1
        (mkPromizen (fuel + 1) m (ExecAction.callResolve v :: rest3)).2).value
        = v) := by
  set m1 : Machine := { m with heap := m.heap ++ [initPState] } with hm1
  have hfresh : getP m1 m.heap.length = initPState := by
    rw [hm1, getP_append_initPState]
    exact getP_oob m _ (le_refl _)
  have hf : (getP m1 m.heap.length).fate = Fate.unresolved := by rw [hfresh]; rfl
  have hs : (getP m1 m.heap.length).state = PZState.pending := by rw [hfresh]; rfl
  have hl : m.heap.length < m1.heap.length := by
    rw [hm1]; simp
  refine ⟨?_, ?_, ?_⟩
  · show (getP (reject m1 m.heap.length e) m.heap.length).state = _ ∧
      (getP (reject m1 m.heap.length e) m.heap.length).reason = e
    have hres := reject_result m1 m.heap.length e hf hs hl
    exact ⟨by rw [hres.1], by rw [hres.1]⟩
  · show (getP (runExecActions fuel (reject m1 m.heap.length r) m.heap.length rest2)
        m.heap.length).state = _ ∧
      (getP (runExecActions fuel (reject m1 m.heap.length r) m.heap.length rest2)
        m.heap.length).reason = r
    have hres := reject_result m1 m.heap.length r hf hs hl
    have hnoop := runExecActions_noop fuel (reject m1 m.heap.length r)
      m.heap.length (by rw [hres.1]) rest2
    rw [hnoop]
    exact ⟨by rw [hres.1], by rw [hres.1]⟩
  · show (getP (runExecActions (fuel + 1) (resolve (fuel + 1) m1 m.heap.length v)
        m.heap.length rest3) m.heap.length).state = _ ∧
      (getP (runExecActions (fuel + 1) (resolve (fuel + 1) m1 m.heap.length v)
        m.heap.length rest3) m.heap.length).value = v
    have hres := resolve_fresh_primitive fuel m1 m.heap.length v hp hf hs hl
    have hnoop := runExecActions_noop (fuel + 1) (resolve (fuel + 1) m1 m.heap.length v)
      m.heap.length (by rw [hres.1]) rest3
    rw [hnoop]
    exact ⟨by rw [hres.1], by rw [hres.1]⟩

/-- Witness for C6: an executor that only throws "boom" yields a promizen
rejected with "boom"; executors that settle first and then throw keep the
first settlement. -/
theorem executor_throw_vs_settlement_witness :
    isPrimitive (JSValue.num 5) = true ∧
    (((getP (mkPromizen 1 emptyMachine [ExecAction.throwErr (JSValue.str "boom")]).1
        (mkPromizen 1 emptyMachine [ExecAction.throwErr (JSValue.str "boom")]).2).state
        = PZState.rejected ∧
      (getP (mkPromizen 1 emptyMachine [ExecAction.throwErr (JSValue.str "boom")]).1
        (mkPromizen 1 emptyMachine [ExecAction.throwErr (JSValue.str "boom")]).2).reason
        = JSValue.str "boom") ∧
    ((getP (mkPromizen 1 emptyMachine [ExecAction.callReject (JSValue.str "r"),
        ExecAction.throwErr (JSValue.str "boom")]).1
        (mkPromizen 1 emptyMachine [ExecAction.callReject (JSValue.str "r"),
        ExecAction.throwErr (JSValue.str "boom")]).2).state = PZState.rejected ∧
      (getP (mkPromizen 1 emptyMachine [ExecAction.callReject (JSValue.str "r"),
        ExecAction.throwErr (JSValue.str "boom")]).1
        (mkPromizen 1 emptyMachine [ExecAction.callReject (JSValue.str "r"),
        ExecAction.throwErr (JSValue.str "boom")]).2).reason = JSValue.str "r") ∧
    ((getP (mkPromizen 2 emptyMachine [ExecAction.callResolve (JSValue.num 5),
        ExecAction.throwErr (JSValue.str "boom")]).1
        (mkPromizen 2 emptyMachine [ExecAction.callResolve (JSValue.num 5),
        ExecAction.throwErr (JSValue.str "boom")]).2).state = PZState.fulfilled ∧
      (getP (mkPromizen 2 emptyMachine [ExecAction.callResolve (JSValue.num 5),
        ExecAction.throwErr (JSValue.str "boom")]).1
        (mkPromizen 2 emptyMachine [ExecAction.callResolve (JSValue.num 5),
        ExecAction.throwErr (JSValue.str "boom")]).2).value = JSValue.num 5)) :=
  ⟨rfl, executor_throw_vs_settlement 1 emptyMachine (JSValue.str "boom")
    (JSValue.str "r") (JSValue.num 5) []
    [ExecAction.throwErr (JSValue.str "boom")]
    [ExecAction.throwErr (JSValue.str "boom")] rfl⟩

theorem getP_pushedMachine (m : Machine) (q : List Microtask)
    (lg : List (HFun × JSValue)) (pid : Nat) :
    getP (pushedMachine m q lg) pid = getP m pid :=
  getP_append_initPState m pid

theorem getP_mkAppend (m : Machine) (q : List Microtask)
    (lg : List (HFun × JSValue)) (pid : Nat) :
    getP { heap := m.heap ++ [initPState], queue := q, log := lg } pid
      = getP m pid :=
  getP_append_initPState m pid

/-- C7: missing (or non-callable) arguments to the chaining operation are
replaced by the identity pass-through and the re-raising default, so
`then()` with no arguments on a fulfilled promizen (with a primitive value,
the terminal case of the resolution procedure) yields a new promizen that,
once the queued microtask is drained, is Fulfilled with exactly the same
value, and `then()` on a rejected promizen yields one Rejected with exactly
the same reason. -/
theorem then_defaults_passthrough (fuel : Nat) (m : Machine) (src : Nat)
    (hq : m.queue = []) :
    ((getP m src).state = PZState.fulfilled →
      isPrimitive (getP m src).value = true →
      (getP (runQueue (fuel + 1) 1 (thenOp m src none none).1)
        (thenOp m src none none).2).state = PZState.fulfilled ∧
      (getP (runQueue (fuel + 1) 1 (thenOp m src none none).1)
        (thenOp m src none none).2).value = (getP m src).value) ∧
    ((getP m src).state = PZState.rejected →
      (getP (runQueue (fuel + 1) 1 (thenOp m src none none).1)
        (thenOp m src none none).2).state = PZState.rejected ∧
      (getP (runQueue (fuel + 1) 1 (thenOp m src none none).1)
        (thenOp m src none none).2).reason = (getP m src).reason) := by
  constructor
  · intro hs hv
    have hthen : thenOp m src none none
        = (pushedMachine m [Microtask.run src m.heap.length false HFun.ident] m.log,
           m.heap.length) := by
      simp [thenOp, pushedMachine, getP_mkAppend, hs, hq]
    rw [hthen]
    have hstep : runQueue (fuel + 1) 1
        (pushedMachine m [Microtask.run src m.heap.length false HFun.ident] m.log)
        = resolve (fuel + 1)
            (pushedMachine m []
              (m.log ++ [(HFun.ident, (getP (pushedMachine m [] m.log) src).value)]))
            m.heap.length
            ((getP (pushedMachine m [] m.log) src).value) := rfl
    rw [hstep, getP_pushedMachine m [] m.log src]
    have hf3 : (getP (pushedMachine m []
        (m.log ++ [(HFun.ident, (getP m src).value)])) m.heap.length).fate
        = Fate.unresolved := by
      rw [getP_pushedMachine, getP_oob m _ (le_refl _)]
      rfl
    have hs3 : (getP (pushedMachine m []
        (m.log ++ [(HFun.ident, (getP m src).value)])) m.heap.length).state
        = PZState.pending := by
      rw [getP_pushedMachine, getP_oob m _ (le_refl _)]
      rfl
    have hl3 : m.heap.length < (pushedMachine m []
        (m.log ++ [(HFun.ident, (getP m src).value)])).heap.length := by
      simp [pushedMachine]
    have hres := resolve_fresh_primitive fuel
      (pushedMachine m [] (m.log ++ [(HFun.ident, (getP m src).value)]))
      m.heap.length ((getP m src).value) hv hf3 hs3 hl3
    rw [hres.1]
    exact ⟨rfl, rfl⟩
  · intro hs
    have hthen : thenOp m src none none
        = (pushedMachine m [Microtask.run src m.heap.length true HFun.rethrow] m.log,
           m.heap.length) := by
      simp [thenOp, pushedMachine, getP_mkAppend, hs, hq]
    rw [hthen]
    have hstep : runQueue (fuel + 1) 1
        (pushedMachine m [Microtask.run src m.heap.length true HFun.rethrow] m.log)
        = reject
            (pushedMachine m []
              (m.log ++ [(HFun.rethrow, (getP (pushedMachine m [] m.log) src).reason)]))
            m.heap.length
            ((getP (pushedMachine m [] m.log) src).reason) := rfl
    rw [hstep, getP_pushedMachine m [] m.log src]
    have hf3 : (getP (pushedMachine m []
        (m.log ++ [(HFun.rethrow, (getP m src).reason)])) m.heap.length).fate
        = Fate.unresolved := by
      rw [getP_pushedMachine, getP_oob m _ (le_refl _)]
      rfl
    have hs3 : (getP (pushedMachine m []
        (m.log ++ [(HFun.rethrow, (getP m src).reason)])) m.heap.length).state
        = PZState.pending := by
      rw [getP_pushedMachine, getP_oob m _ (le_refl _)]
      rfl
    have hl3 : m.heap.length < (pushedMachine m []
        (m.log ++ [(HFun.rethrow, (getP m src).reason)])).heap.length := by
      simp [pushedMachine]
    have hres := reject_result
      (pushedMachine m [] (m.log ++ [(HFun.rethrow, (getP m src).reason)]))
      m.heap.length ((getP m src).reason) hf3 hs3 hl3
    rw [hres.1]
    exact ⟨rfl, rfl⟩

/-- Witness for C7: `then()` with no arguments on a promizen fulfilled with
`9` and on one rejected with "why". -/
theorem then_defaults_passthrough_witness :
    (wM7a.queue = [] ∧ (getP wM7a 0).state = PZState.fulfilled ∧
      isPrimitive (getP wM7a 0).value = true ∧
      wM7b.queue = [] ∧ (getP wM7b 0).state = PZState.rejected) ∧
    ((getP (runQueue 1 1 (thenOp wM7a 0 none none).1)
        (thenOp wM7a 0 none none).2).state = PZState.fulfilled ∧
      (getP (runQueue 1 1 (thenOp wM7a 0 none none).1)
        (thenOp wM7a 0 none none).2).value = JSValue.num 9) ∧
    ((getP (runQueue 1 1 (thenOp wM7b 0 none none).1)
        (thenOp wM7b 0 none none).2).state = PZState.rejected ∧
      (getP (runQueue 1 1 (thenOp wM7b 0 none none).1)
        (thenOp wM7b 0 none none).2).reason = JSValue.str "why") :=
  ⟨⟨rfl, rfl, rfl, rfl, rfl⟩,
    (then_defaults_passthrough 0 wM7a 0 rfl).1 rfl rfl,
    (then_defaults_passthrough 0 wM7b 0 rfl).2 rfl⟩

/-- C8: during resolution of an object candidate, if reading its
`then`-like member throws `e`, the promizen is rejected with exactly `e`
and the procedure stops — the whole effect of the resolution step is the
single `__reject` call (so the member is neither re-read nor invoked). -/
theorem then_member_read_throw_rejects (fuel : Nat) (m : Machine) (pid : Nat)
    (e : JSValue) (hl : pid < m.heap.length) :
    resolveValue (fuel + 1) m pid (JSValue.obj (ThenBehavior.getterThrows e))
      = rejectInternal m pid e ∧
    (getP (resolveValue (fuel + 1) m pid
      (JSValue.obj (ThenBehavior.getterThrows e))) pid).state
      = PZState.rejected ∧
    (getP (resolveValue (fuel + 1) m pid
      (JSValue.obj (ThenBehavior.getterThrows e))) pid).reason = e := by
  have hstep : resolveValue (fuel + 1) m pid
      (JSValue.obj (ThenBehavior.getterThrows e)) = rejectInternal m pid e := by
    simp [resolveValue]
  have hres := rejectInternal_result m pid e hl
  exact ⟨hstep, by rw [hstep, hres.1], by rw [hstep, hres.1]⟩

/-- Witness for C8: a fresh promizen resolved with an object whose `then`
getter throws the string "getter threw". -/
theorem then_member_read_throw_rejects_witness :
    0 < wM8.heap.length ∧
    (resolveValue 1 wM8 0
        (JSValue.obj (ThenBehavior.getterThrows (JSValue.str "getter threw")))
      = rejectInternal wM8 0 (JSValue.str "getter threw") ∧
    (getP (resolveValue 1 wM8 0
      (JSValue.obj (ThenBehavior.getterThrows (JSValue.str "getter threw")))) 0).state
      = PZState.rejected ∧
    (getP (resolveValue 1 wM8 0
      (JSValue.obj (ThenBehavior.getterThrows (JSValue.str "getter threw")))) 0).reason
      = JSValue.str "getter threw") :=
  ⟨by decide, then_member_read_throw_rejects 0 wM8 0 (JSValue.str "getter threw")
    (by decide)⟩

/-- C9 counterexample: the scenario settles the chained promizen as
Fulfilled with `10` — the length of the 10-character string "How are u?" —
with the queue drained, so it is never Fulfilled with `11` as the claim
states. -/
theorem chain_length_scenario_counterexample :
    (getP chainScenario 1).state = PZState.fulfilled ∧
    (getP chainScenario 1).value = JSValue.num 10 ∧
    chainScenario.queue = [] ∧
    ¬(getP chainScenario 1).value = JSValue.num 11 := by
  refine ⟨rfl, rfl, rfl, fun h => ?_⟩
  exact absurd (JSValue.num.inj h) (by decide)

/-- C9 (amended): constructing with an executor that synchronously calls
`resolve("How are u?")` and then attaching `then(v => v.length)` yields a
promizen eventually Fulfilled with `10` (the length of "How are u?"). -/
theorem chain_length_scenario :
    (getP chainScenario 1).state = PZState.fulfilled ∧
    (getP chainScenario 1).value = JSValue.num 10 ∧
    chainScenario.queue = [] :=
  ⟨rfl, rfl, rfl⟩

theorem getP_self_oob (m : Machine) : getP m m.heap.length = initPState :=
  getP_oob m _ (le_refl _)

theorem getP_mkAppend_len (m : Machine) (q : List Microtask)
    (lg : List (HFun × JSValue)) :
    getP { heap := m.heap ++ [initPState], queue := q, log := lg } m.heap.length
      = initPState := by
  rw [getP_mkAppend]
  exact getP_self_oob m

theorem thenOp_tgt_pending (m : Machine) (src : Nat) (a b : Option HFun) :
    (getP (thenOp m src a b).1 (thenOp m src a b).2).state = PZState.pending ∧
    (getP (thenOp m src a b).1 (thenOp m src a b).2).fate = Fate.unresolved := by
  simp only [thenOp]
  split
  · constructor <;> simp +decide [getP_mkAppend_len]
  · split
    · constructor <;> simp +decide [getP_mkAppend_len]
    · rcases eq_or_ne src m.heap.length with he | hne
      · rw [he]
        have hl : m.heap.length <
            ({ m with heap := m.heap ++ [initPState] } : Machine).heap.length := by
          simp
        constructor <;> rw [getP_setP_self _ _ _ hl] <;>
          simp +decide [getP_mkAppend_len]
      · constructor <;> rw [getP_setP_ne _ _ _ _ hne] <;>
          simp +decide [getP_mkAppend_len]

/-- C10: for every promizen and any handler arguments, the new promizen
returned by `then` or `catch` is still Pending — with its fate latch still
unresolved — at the moment the call returns, even when the source is
already Fulfilled or Rejected at call time: the call only queues a
microtask or stashes a handler pair, so the returned promizen can settle
only in a later drained task. -/
theorem then_returns_pending (m : Machine) (src : Nat) (onF onR : Option HFun) :
    (getP (thenOp m src onF onR).1 (thenOp m src onF onR).2).state
      = PZState.pending ∧
    (getP (thenOp m src onF onR).1 (thenOp m src onF onR).2).fate
      = Fate.unresolved ∧
    (getP (catchOp m src onR).1 (catchOp m src onR).2).state
      = PZState.pending ∧
    (getP (catchOp m src onR).1 (catchOp m src onR).2).fate
      = Fate.unresolved :=
  ⟨(thenOp_tgt_pending m src onF onR).1, (thenOp_tgt_pending m src onF onR).2,
    (thenOp_tgt_pending m src none onR).1, (thenOp_tgt_pending m src none onR).2⟩
